import Mathlib

/-!
Verification of the `spectre` batch registry and path layer.

This file shallowly embeds the parts of `spectre_core` that the verified
properties concern:

* `spectre_core/config/_paths.py` — date-partitioned directory construction
  (`_get_date_based_dir_path`, `get_batches_dir_path`);
* `spectre_core/batches/_batches.py` — the `Batches` registry (`update`,
  `set_date`, lookup by start time, lookup by integer index,
  `get_spectrogram_from_range`).

Python strings are modelled as Lean `String`s compared lexicographically by
code point (Python's `<` on `str`); Python `datetime` values, which the range
query only ever compares, are modelled as integers; fallible operations
return `Except`.
-/

deriving instance DecidableEq for Except

namespace SpectreCore

/-! ### Python string primitives -/

/-- Lexicographic (code-point) strict comparison of char lists: the order
Python uses for `str < str`. -/
def charListLt : List Char → List Char → Bool
  | [], [] => false
  | [], _ :: _ => true
  | _ :: _, [] => false
  | a :: as, b :: bs => if a < b then true else if b < a then false else charListLt as bs

/-- Python `a < b` on strings. -/
def strLt (a b : String) : Bool := charListLt a.data b.data

/-- Python `a <= b` on strings. -/
def strLe (a b : String) : Bool := strLt a b || a == b

/-- `os.path.splitext` on a bare file name (no path separators): splits off
the extension at the last dot, provided some non-dot character precedes it;
leading dots alone never start an extension. -/
def splitext (s : String) : String × String :=
  let cs := s.data
  if cs.contains '.' then
    let extLen := (cs.reverse.takeWhile (fun c => c != '.')).length
    let i := cs.length - extLen - 1
    if (cs.take i).any (fun c => c != '.') then (⟨cs.take i⟩, ⟨cs.drop i⟩) else (s, "")
  else (s, "")

/-- Python `s.split("_", 1)` unpacked into a pair `(before, after)` of the
text before and after the first underscore; `none` when `s` has no
underscore, in which case the source's tuple unpacking raises. -/
def splitFirstUnderscore (s : String) : Option (String × String) :=
  match s.data.dropWhile (fun c => c != '_') with
  | [] => none
  | _ :: suf => some (⟨s.data.takeWhile (fun c => c != '_')⟩, ⟨suf⟩)

/-! ### `_paths.py`: date-based directory construction -/

/-- Python truthiness of an optional integer: `None` and `0` are falsy. -/
def truthy : Option Nat → Bool
  | none => false
  | some n => n != 0

/-- Python `f"{n:0w}"` for a natural number: decimal digits left-padded with
zeros to width `w`. -/
def zeroPad (w : Nat) (n : Nat) : String :=
  let s := toString n
  ⟨List.replicate (w - s.length) '0' ++ s.data⟩

/-- POSIX `os.path.join(base, *components)` for relative components. -/
def osPathJoin (base : String) (components : List String) : String :=
  components.foldl (fun acc c => acc ++ "/" ++ c) base

/-- `_get_date_based_dir_path(base_dir, year, month, day)`: validates the
day ⇒ (year ∧ month) and month ⇒ year dependencies by Python truthiness and
appends the zero-padded present components. `ValueError` is modelled as
`Except.error` carrying the source's message. -/
def get_date_based_dir_path (baseDir : String) (year month day : Option Nat) :
    Except String String :=
  if truthy day && !(truthy year && truthy month) then
    .error "A day requires both a month and a year"
  else if truthy month && !truthy year then
    .error "A month requires a year"
  else
    .ok (osPathJoin baseDir
      ((if truthy year then [zeroPad 4 (year.getD 0)] else []) ++
       (if truthy month then [zeroPad 2 (month.getD 0)] else []) ++
       (if truthy day then [zeroPad 2 (day.getD 0)] else [])))

/-- `get_batches_dir_path(year, month, day)`: the batches root
(`<SPECTRE_DATA_DIR_PATH>/batches`) with the optional date partition
appended. -/
def get_batches_dir_path (dataDir : String) (year month day : Option Nat) :
    Except String String :=
  get_date_based_dir_path (dataDir ++ "/batches") year month day

/-! ### `_batches.py`: the `Batches` registry -/

/-- A `Batch` handle: `batch_cls(start_time, tag)` keeps exactly the start
time and the tag. -/
structure Batch where
  startTime : String
  tag : String
deriving DecidableEq, Inhabited, Repr

/-- The registry's `_batch_map`: an insertion-ordered mapping from start-time
string to the batch stored under it (`OrderedDict`). -/
abbrev Registry := List (String × Batch)

/-- The keys of the mapping in order: the `start_times` property. -/
def start_times (r : Registry) : List String := r.map Prod.fst

/-- The values of the mapping in order: the `batch_list` property. -/
def batch_list (r : Registry) : List Batch := r.map Prod.snd

/-- `OrderedDict` assignment `m[k] = v`: an existing key keeps its position
and gets the new value, a fresh key is appended at the end. -/
def odInsert (m : Registry) (k : String) (v : Batch) : Registry :=
  if m.any (fun p => p.1 == k) then
    m.map (fun p => if p.1 == k then (k, v) else p)
  else m ++ [(k, v)]

/-- The comparison `sorted(self._batch_map.items())` uses: item order is
decided by the (unique) keys, compared as Python strings. -/
def itemLe (a b : String × Batch) : Prop := strLe a.1 b.1 = true

instance : DecidableRel itemLe := fun a b => instDecidableEqBool (strLe a.1 b.1) true

/-- `OrderedDict(sorted(m.items()))`: the mapping re-ordered by key with a
stable sort. -/
def sortByKey (m : Registry) : Registry := m.insertionSort itemLe

/-- Errors the registry operations can raise: `BatchNotFoundError`, Python's
`IndexError`, the `ValueError` tuple unpacking raises in `update`, and
`SpectrogramNotFoundError`. -/
inductive RegistryError
  | batchNotFound
  | indexError
  | unpackError
  | spectrogramNotFound
deriving DecidableEq, Repr

/-- The body of `update`'s discovery loop over the walked file names: strip
the extension, split at the first underscore (tuple unpacking raises on a
name with no underscore), keep entries whose tag matches. -/
def updateAux (tag : String) (m : Registry) :
    List String → Except RegistryError Registry
  | [] => .ok m
  | f :: fs =>
    match splitFirstUnderscore (splitext f).1 with
    | none => .error .unpackError
    | some (st, t) =>
      updateAux tag (if t == tag then odInsert m st { startTime := st, tag := t } else m) fs

/-- `Batches.update()`: rebuild the mapping from scratch out of the file
names found under `batches_dir_path`, then sort it by start time. -/
def update (tag : String) (files : List String) : Except RegistryError Registry :=
  (updateAux tag [] files).map sortByKey

/-- The matching start times in discovery order: one entry per walked file
whose extension-stripped name splits as `<start_time>_<tag>` with this
registry's tag. -/
def discoveredStartTimes (tag : String) (files : List String) : List String :=
  files.filterMap fun f =>
    (splitFirstUnderscore (splitext f).1).bind fun p =>
      if p.2 == tag then some p.1 else none

/-- The mutable state a `Batches` instance carries into `update`: its tag and
its current `_batch_map`. -/
structure BatchesState where
  tag : String
  batchMap : Registry
deriving DecidableEq

/-- `update` as a state transformer: the old `_batch_map` is discarded
("reset cache") and replaced by the freshly discovered, sorted mapping. -/
def updateState (files : List String) (s : BatchesState) :
    Except RegistryError BatchesState :=
  (update s.tag files).map fun m => { s with batchMap := m }

/-- `Batches._get_from_start_time`: dictionary access, with `KeyError`
re-raised as `BatchNotFoundError`. -/
def get_from_start_time (r : Registry) (startTime : String) :
    Except RegistryError Batch :=
  match r.find? (fun p => p.1 == startTime) with
  | some p => .ok p.2
  | none => .error .batchNotFound

/-- CPython list subscription `l[i]`: a negative index is offset by the
length; the result must land in `[0, len)`, else `IndexError`. -/
def pyListGet (l : List Batch) (i : Int) : Except RegistryError Batch :=
  let j := if i < 0 then (l.length : Int) + i else i
  if 0 ≤ j then
    match l.get? j.toNat with
    | some x => .ok x
    | none => .error .indexError
  else .error .indexError

/-- `Batches._get_from_index`: an empty registry raises
`BatchNotFoundError`, an index strictly greater than the batch count raises
`IndexError`, and anything else is plain list subscription of
`batch_list`. -/
def get_from_index (r : Registry) (index : Int) : Except RegistryError Batch :=
  if r.length = 0 then .error .batchNotFound
  else if (r.length : Int) < index then .error .indexError
  else pyListGet (batch_list r) index

/-! ### The lexicographic string order -/

theorem charListLt_irrefl (as : List Char) : charListLt as as = false := by
  induction as with
  | nil => rfl
  | cons a tl ih => simp [charListLt, ih]

theorem charListLt_trans {as bs cs : List Char}
    (h₁ : charListLt as bs = true) (h₂ : charListLt bs cs = true) :
    charListLt as cs = true := by
  induction as generalizing bs cs with
  | nil =>
    cases bs with
    | nil => simp [charListLt] at h₁
    | cons b tb =>
      cases cs with
      | nil => simp [charListLt] at h₂
      | cons c tc => simp [charListLt]
  | cons a ta ih =>
    cases bs with
    | nil => simp [charListLt] at h₁
    | cons b tb =>
      cases cs with
      | nil => simp [charListLt] at h₂
      | cons c tc =>
        simp only [charListLt] at h₁ h₂ ⊢
        rcases lt_trichotomy a b with hab | hab | hab
        · rcases lt_trichotomy b c with hbc | hbc | hbc
          · simp [lt_trans hab hbc]
          · subst hbc; simp [hab]
          · rw [if_neg (lt_asymm hbc), if_pos hbc] at h₂
            exact absurd h₂ (by simp)
        · subst hab
          rw [if_neg (lt_irrefl a), if_neg (lt_irrefl a)] at h₁
          rcases lt_trichotomy a c with hac | hac | hac
          · simp [hac]
          · subst hac
            rw [if_neg (lt_irrefl a), if_neg (lt_irrefl a)] at h₂ ⊢
            exact ih h₁ h₂
          · rw [if_neg (lt_asymm hac), if_pos hac] at h₂
            exact absurd h₂ (by simp)
        · rw [if_neg (lt_asymm hab), if_pos hab] at h₁
          exact absurd h₁ (by simp)

theorem charListLt_trichotomy (as bs : List Char) :
    charListLt as bs = true ∨ as = bs ∨ charListLt bs as = true := by
  induction as generalizing bs with
  | nil =>
    cases bs with
    | nil => right; left; rfl
    | cons b tb => left; rfl
  | cons a ta ih =>
    cases bs with
    | nil => right; right; rfl
    | cons b tb =>
      rcases lt_trichotomy a b with hab | hab | hab
      · left; simp [charListLt, hab]
      · subst hab
        rcases ih tb with h | h | h
        · left; simp [charListLt, h]
        · right; left; rw [h]
        · right; right; simp [charListLt, h]
      · right; right; simp [charListLt, hab]

theorem charListLt_asymm {as bs : List Char}
    (h : charListLt as bs = true) : charListLt bs as = false := by
  by_contra hc
  have h' : charListLt bs as = true := by
    cases hcl : charListLt bs as with
    | false => exact absurd hcl hc
    | true => rfl
  have := charListLt_trans h h'
  rw [charListLt_irrefl] at this
  exact absurd this (by simp)

theorem strLe_refl (a : String) : strLe a a = true := by simp [strLe]

theorem strLt_trans {a b c : String} (h₁ : strLt a b = true)
    (h₂ : strLt b c = true) : strLt a c = true :=
  charListLt_trans h₁ h₂

theorem strLe_trans {a b c : String} (h₁ : strLe a b = true)
    (h₂ : strLe b c = true) : strLe a c = true := by
  simp only [strLe, Bool.or_eq_true, beq_iff_eq] at h₁ h₂ ⊢
  rcases h₁ with h₁ | h₁
  · rcases h₂ with h₂ | h₂
    · exact Or.inl (strLt_trans h₁ h₂)
    · subst h₂; exact Or.inl h₁
  · subst h₁; exact h₂

theorem strLe_total (a b : String) : strLe a b = true ∨ strLe b a = true := by
  simp only [strLe, Bool.or_eq_true, beq_iff_eq]
  rcases charListLt_trichotomy a.data b.data with h | h | h
  · exact Or.inl (Or.inl h)
  · exact Or.inl (Or.inr (String.ext h))
  · exact Or.inr (Or.inl h)

theorem strLe_antisymm {a b : String} (h₁ : strLe a b = true)
    (h₂ : strLe b a = true) : a = b := by
  simp only [strLe, Bool.or_eq_true, beq_iff_eq] at h₁ h₂
  rcases h₁ with h₁ | h₁
  · rcases h₂ with h₂ | h₂
    · have h₃ := @charListLt_asymm a.data b.data h₁
      have h₄ : charListLt b.data a.data = true := h₂
      rw [h₃] at h₄
      exact absurd h₄ (by simp)
    · exact h₂.symm
  · exact h₁

theorem strLt_of_strLe_of_ne {a b : String} (h : strLe a b = true)
    (hne : a ≠ b) : strLt a b = true := by
  simp only [strLe, Bool.or_eq_true, beq_iff_eq] at h
  rcases h with h | h
  · exact h
  · exact absurd h hne

theorem strLe_of_strLt {a b : String} (h : strLt a b = true) :
    strLe a b = true := by simp [strLe, h]

instance : IsTrans (String × Batch) itemLe :=
  ⟨fun _ _ _ h₁ h₂ => strLe_trans h₁ h₂⟩

instance : IsTotal (String × Batch) itemLe :=
  ⟨fun a b => strLe_total a.1 b.1⟩

instance : IsTrans String (fun a b => strLe a b = true) :=
  ⟨fun _ _ _ h₁ h₂ => strLe_trans h₁ h₂⟩

instance : IsTotal String (fun a b => strLe a b = true) :=
  ⟨fun a b => strLe_total a b⟩

instance : IsAntisymm String (fun a b => strLe a b = true) :=
  ⟨fun _ _ h₁ h₂ => strLe_antisymm h₁ h₂⟩

/-! ### Lookup theorems -/

theorem find_key_of_mem {st : String} {b : Batch} :
    ∀ {r : Registry}, (start_times r).Nodup → (st, b) ∈ r →
      r.find? (fun p => p.1 == st) = some (st, b) := by
  intro r
  induction r with
  | nil => intro _ h; simp at h
  | cons hd tl ih =>
    intro hn hmem
    have hn' : hd.1 ∉ start_times tl ∧ (start_times tl).Nodup := by
      have hc : start_times (hd :: tl) = hd.1 :: start_times tl := rfl
      rw [hc] at hn
      exact List.nodup_cons.mp hn
    rcases List.mem_cons.mp hmem with h | h
    · rw [← h]
      rw [List.find?_cons_of_pos _ (by simp)]
    · have hst : st ∈ start_times tl := List.mem_map_of_mem Prod.fst h
      have hhd : ¬ (hd.1 == st) = true := by
        simp only [beq_iff_eq]
        intro he
        exact hn'.1 (he ▸ hst)
      rw [List.find?_cons_of_neg (p := fun q => q.1 == st) tl hhd]
      exact ih hn'.2 h

/-- C7: lookup by exact start-time string returns the batch stored under
that key when present, and raises `BatchNotFoundError` when no batch with
that start time is in the index. -/
theorem c7_start_time_lookup (r : Registry) (st : String)
    (hn : (start_times r).Nodup) :
    (∀ b, (st, b) ∈ r → get_from_start_time r st = .ok b)
    ∧ (st ∉ start_times r → get_from_start_time r st = .error .batchNotFound) := by
  constructor
  · intro b hb
    unfold get_from_start_time
    rw [find_key_of_mem hn hb]
  · intro habs
    have hfind : r.find? (fun p => p.1 == st) = none := by
      rw [List.find?_eq_none]
      intro p hp
      simp only [beq_iff_eq]
      intro h
      exact habs (h ▸ List.mem_map_of_mem Prod.fst hp)
    unfold get_from_start_time
    rw [hfind]

/-- C7 witness: in a concrete two-entry index, a present start time is
found and an absent one raises `BatchNotFoundError`. -/
theorem c7_start_time_lookup_witness :
    get_from_start_time
        [("2024-01-01T00:00:00", ⟨"2024-01-01T00:00:00", "t"⟩),
         ("2024-01-02T00:00:00", ⟨"2024-01-02T00:00:00", "t"⟩)]
        "2024-01-02T00:00:00" = .ok ⟨"2024-01-02T00:00:00", "t"⟩
    ∧ get_from_start_time
        [("2024-01-01T00:00:00", ⟨"2024-01-01T00:00:00", "t"⟩)]
        "2025-06-01T12:00:00" = .error .batchNotFound := by
  constructor
  · exact (c7_start_time_lookup _ _ (by decide)).1 _ (by decide)
  · exact (c7_start_time_lookup _ _ (by decide)).2 (by decide)

theorem get_from_index_ok (r : Registry) (i : Int) (hn : 0 < r.length)
    (hi0 : 0 ≤ i) (hilt : i < (r.length : Int)) (b : Batch)
    (hb : (batch_list r).get? i.toNat = some b) :
    get_from_index r i = .ok b := by
  unfold get_from_index pyListGet
  rw [if_neg (by omega), if_neg (by omega)]
  simp only [if_neg (by omega : ¬ i < 0), if_pos hi0, hb]

/-- C2 counterexample: a registry holding exactly one batch rejects index
`1` (the batch count) with an `IndexError` raised by the underlying list
subscription, so an index equal to the count is *not* accepted. -/
theorem c2_count_index_counterexample :
    get_from_index [("2024-01-01T00:00:00", ⟨"2024-01-01T00:00:00", "t"⟩)] 1 =
      .error .indexError := by decide

/-- C2 amended: an empty registry raises `BatchNotFoundError`; with `n > 0`
batches the explicit guard rejects only `i > n`, but `i = n` still raises
`IndexError` from the list subscription, so every `i ≥ n` fails with
`IndexError` while `0 ≤ i < n` returns the batch at position `i`; index `0`
returns the first entry, which is the chronologically earliest key when the
index is strictly sorted. -/
theorem c2_index_lookup_bounds (r : Registry) (i : Int) :
    (r.length = 0 → get_from_index r i = .error .batchNotFound)
    ∧ (0 < r.length → 0 ≤ i → i < (r.length : Int) →
        ∀ b, (batch_list r).get? i.toNat = some b → get_from_index r i = .ok b)
    ∧ (0 < r.length → (r.length : Int) ≤ i →
        get_from_index r i = .error .indexError)
    ∧ (0 < r.length → ∀ b, (batch_list r).get? 0 = some b →
        get_from_index r 0 = .ok b)
    ∧ (0 < r.length → (start_times r).Pairwise (fun a b => strLt a b = true) →
        ∀ k ∈ start_times r, strLe ((start_times r).getD 0 "") k = true) := by
  refine ⟨?_, fun hn hi0 hilt b hb => get_from_index_ok r i hn hi0 hilt b hb, ?_, ?_, ?_⟩
  · intro h
    unfold get_from_index
    rw [if_pos h]
  · intro hn hile
    have hlen : (batch_list r).length = r.length := by simp [batch_list]
    unfold get_from_index
    rw [if_neg (by omega)]
    rcases lt_or_eq_of_le hile with hlt | heq
    · rw [if_pos hlt]
    · rw [if_neg (by omega)]
      unfold pyListGet
      simp only [if_neg (by omega : ¬ i < 0), if_pos (by omega : (0:Int) ≤ i)]
      have hnone : (batch_list r).get? i.toNat = none := by
        rw [List.get?_eq_none]
        omega
      rw [hnone]
  · intro hn b hb
    exact get_from_index_ok r 0 hn (by omega) (by omega) b (by simpa using hb)
  · intro hn hsorted k hk
    cases hst : start_times r with
    | nil => rw [hst] at hk; simp at hk
    | cons k₀ ks =>
      rw [hst] at hk hsorted
      rcases List.mem_cons.mp hk with h | h
      · subst h
        exact strLe_refl _
      · exact strLe_of_strLt ((List.pairwise_cons.mp hsorted).1 k h)

/-- C2 witness: on a concrete two-batch registry, the empty-registry error,
the in-range success, the out-of-range error and the index-0 head lookup all
follow from the amended bounds theorem. -/
theorem c2_index_lookup_bounds_witness :
    get_from_index ([] : Registry) 0 = .error .batchNotFound
    ∧ get_from_index [("A", (⟨"A", "t"⟩ : Batch)), ("B", ⟨"B", "t"⟩)] 1 =
        .ok ⟨"B", "t"⟩
    ∧ get_from_index [("A", (⟨"A", "t"⟩ : Batch)), ("B", ⟨"B", "t"⟩)] 5 =
        .error .indexError
    ∧ get_from_index [("A", (⟨"A", "t"⟩ : Batch)), ("B", ⟨"B", "t"⟩)] 0 =
        .ok ⟨"A", "t"⟩ := by
  refine ⟨?_, ?_, ?_, ?_⟩
  · exact (c2_index_lookup_bounds [] 0).1 rfl
  · exact (c2_index_lookup_bounds _ 1).2.1 (by decide) (by decide) (by decide) _
      (by decide)
  · exact (c2_index_lookup_bounds _ 5).2.2.1 (by decide) (by decide)
  · exact (c2_index_lookup_bounds _ 0).2.2.2.1 (by decide) _ (by decide)

/-- C9: on a non-empty registry a negative index `-n ≤ i ≤ -1` raises no
error and returns the batch at position `n + i` (so `-1` is the
chronologically newest batch), while `i < -n` raises `IndexError` — no
modulo wrapping is applied. -/
theorem c9_negative_index (r : Registry) (i : Int) (hn : 0 < r.length) :
    (-(r.length : Int) ≤ i → i ≤ -1 →
       ∀ b, (batch_list r).get? ((r.length : Int) + i).toNat = some b →
         get_from_index r i = .ok b)
    ∧ (i < -(r.length : Int) → get_from_index r i = .error .indexError) := by
  have hlen : (batch_list r).length = r.length := by simp [batch_list]
  constructor
  · intro hlo hhi b hb
    unfold get_from_index pyListGet
    rw [if_neg (by omega), if_neg (by omega)]
    simp only [if_pos (show i < 0 by omega), hlen,
      if_pos (show (0:Int) ≤ (r.length : Int) + i by omega), hb]
  · intro hlt
    unfold get_from_index pyListGet
    rw [if_neg (by omega), if_neg (by omega)]
    simp only [if_pos (show i < 0 by omega), hlen,
      if_neg (show ¬ (0:Int) ≤ (r.length : Int) + i by omega)]

/-- C9 witness: on a concrete two-batch registry, index `-1` returns the
newest batch, index `-2` the oldest, and index `-3` raises `IndexError`. -/
theorem c9_negative_index_witness :
    get_from_index [("A", (⟨"A", "t"⟩ : Batch)), ("B", ⟨"B", "t"⟩)] (-1) =
        .ok ⟨"B", "t"⟩
    ∧ get_from_index [("A", (⟨"A", "t"⟩ : Batch)), ("B", ⟨"B", "t"⟩)] (-2) =
        .ok ⟨"A", "t"⟩
    ∧ get_from_index [("A", (⟨"A", "t"⟩ : Batch)), ("B", ⟨"B", "t"⟩)] (-3) =
        .error .indexError := by
  refine ⟨?_, ?_, ?_⟩
  · exact (c9_negative_index _ (-1) (by decide)).1 (by decide) (by decide) _
      (by decide)
  · exact (c9_negative_index _ (-2) (by decide)).1 (by decide) (by decide) _
      (by decide)
  · exact (c9_negative_index _ (-3) (by decide)).2 (by decide)

/-! ### Update theorems -/

/-- C6: `update` is idempotent — it discards the previous `_batch_map` and
rebuilds from the file names alone, so running it again on the state it just
produced yields exactly that state. -/
theorem c6_update_idempotent (files : List String) (s s' : BatchesState)
    (h : updateState files s = .ok s') :
    updateState files s' = .ok s' := by
  unfold updateState at h ⊢
  cases hu : update s.tag files with
  | error e =>
    rw [hu] at h
    exact absurd h (by simp [Except.map])
  | ok m =>
    rw [hu] at h
    simp only [Except.map] at h
    injection h with h
    subst h
    have htag : update ({ s with batchMap := m } : BatchesState).tag files = .ok m :=
      hu
    rw [htag]
    rfl

/-- C6 witness: re-running `update` on the state a first `update` produced
returns that state unchanged. -/
theorem c6_update_idempotent_witness :
    updateState ["B_t.png", "A_t.png"]
        ⟨"t", [("A", ⟨"A", "t"⟩), ("B", ⟨"B", "t"⟩)]⟩ =
      .ok ⟨"t", [("A", ⟨"A", "t"⟩), ("B", ⟨"B", "t"⟩)]⟩ :=
  c6_update_idempotent ["B_t.png", "A_t.png"] ⟨"t", []⟩ _ (by decide)

theorem splitFirstUnderscore_eq_none_iff (s : String) :
    splitFirstUnderscore s = none ↔ ∀ c ∈ s.data, c ≠ '_' := by
  unfold splitFirstUnderscore
  rcases hd : s.data.dropWhile (fun c => c != '_') with _ | ⟨c, suf⟩
  · constructor
    · intro _ c hc
      simpa using List.dropWhile_eq_nil_iff.mp hd c hc
    · intro _
      rfl
  · constructor
    · intro h
      exact absurd h (by simp)
    · intro hall
      have hnil : s.data.dropWhile (fun c => c != '_') = [] := by
        rw [List.dropWhile_eq_nil_iff]
        intro x hx
        simpa using hall x hx
      rw [hnil] at hd
      exact absurd hd (by simp)

theorem updateAux_error_iff (tag : String) :
    ∀ (files : List String) (m : Registry),
      updateAux tag m files = .error .unpackError ↔
        ∃ f ∈ files, ∀ c ∈ ((splitext f).1).data, c ≠ '_' := by
  intro files
  induction files with
  | nil => intro m; simp [updateAux]
  | cons f fs ih =>
    intro m
    unfold updateAux
    rcases hs : splitFirstUnderscore (splitext f).1 with _ | ⟨st, t⟩
    · constructor
      · intro _
        exact ⟨f, by simp, (splitFirstUnderscore_eq_none_iff _).mp hs⟩
      · intro _
        rfl
    · rw [ih]
      constructor
      · rintro ⟨g, hg, hnog⟩
        exact ⟨g, by simp [hg], hnog⟩
      · rintro ⟨g, hg, hnog⟩
        rcases List.mem_cons.mp hg with rfl | hg'
        · have hgnone : splitFirstUnderscore (splitext g).1 = none :=
            (splitFirstUnderscore_eq_none_iff _).mpr hnog
          rw [hs] at hgnone
          exact absurd hgnone (by simp)
        · exact ⟨g, hg', hnog⟩

/-- C8: `update` fails — with the tuple-unpacking error, not by skipping the
file — exactly when some walked file name, extension stripped, contains no
underscore; so a single foreign file in the batches directory makes the
whole rescan fail. -/
theorem c8_update_requires_underscore (tag : String) (files : List String) :
    update tag files = .error .unpackError ↔
      ∃ f ∈ files, ∀ c ∈ ((splitext f).1).data, c ≠ '_' := by
  unfold update
  rw [← updateAux_error_iff tag files []]
  cases hu : updateAux tag [] files with
  | error e => simp [Except.map]
  | ok m => simp [Except.map]

/-! ### Registry ordering (C4) -/

theorem any_key_iff (m : Registry) (k : String) :
    m.any (fun p => p.1 == k) = true ↔ k ∈ start_times m := by
  rw [List.any_eq_true]
  unfold start_times
  constructor
  · rintro ⟨p, hp, he⟩
    exact (beq_iff_eq.mp he) ▸ List.mem_map_of_mem Prod.fst hp
  · intro hk
    rcases List.mem_map.mp hk with ⟨p, hp, he⟩
    exact ⟨p, hp, by simp [he]⟩

theorem start_times_odInsert_mem {m : Registry} {k : String} (v : Batch)
    (h : m.any (fun p => p.1 == k) = true) :
    start_times (odInsert m k v) = start_times m := by
  unfold odInsert
  rw [if_pos h]
  unfold start_times
  rw [List.map_map]
  apply List.map_congr_left
  intro p _
  by_cases hp : (p.1 == k) = true
  · simp only [Function.comp, hp, if_pos]
    exact (beq_iff_eq.mp hp).symm
  · simp [Function.comp, hp]

theorem start_times_odInsert_not_mem {m : Registry} {k : String} (v : Batch)
    (h : m.any (fun p => p.1 == k) = false) :
    start_times (odInsert m k v) = start_times m ++ [k] := by
  unfold odInsert
  rw [if_neg (by simp [h])]
  unfold start_times
  simp

theorem nodup_start_times_odInsert {m : Registry} {k : String} (v : Batch)
    (h : (start_times m).Nodup) : (start_times (odInsert m k v)).Nodup := by
  cases ha : m.any (fun p => p.1 == k) with
  | true => rw [start_times_odInsert_mem v ha]; exact h
  | false =>
    rw [start_times_odInsert_not_mem v ha]
    rw [(List.perm_append_singleton k (start_times m)).nodup_iff]
    rw [List.nodup_cons]
    refine ⟨?_, h⟩
    intro hk
    rw [← any_key_iff] at hk
    rw [ha] at hk
    exact absurd hk (by simp)

theorem nodup_start_times_updateAux (tag : String) :
    ∀ (files : List String) (m r : Registry), (start_times m).Nodup →
      updateAux tag m files = .ok r → (start_times r).Nodup := by
  intro files
  induction files with
  | nil =>
    intro m r hm hr
    unfold updateAux at hr
    injection hr with hr
    exact hr ▸ hm
  | cons f fs ih =>
    intro m r hm hr
    unfold updateAux at hr
    rcases hs : splitFirstUnderscore (splitext f).1 with _ | ⟨st, t⟩
    · rw [hs] at hr
      exact absurd hr (by simp)
    · rw [hs] at hr
      have hr' : updateAux tag
          (if (t == tag) = true then odInsert m st ⟨st, t⟩ else m) fs = .ok r := hr
      by_cases ht : (t == tag) = true
      · rw [if_pos ht] at hr'
        exact ih _ r (nodup_start_times_odInsert _ hm) hr'
      · rw [if_neg ht] at hr'
        exact ih _ r hm hr'

theorem start_times_updateAux (tag : String) :
    ∀ (files : List String) (m r : Registry),
      (start_times m ++ discoveredStartTimes tag files).Nodup →
      updateAux tag m files = .ok r →
      start_times r = start_times m ++ discoveredStartTimes tag files := by
  intro files
  induction files with
  | nil =>
    intro m r _ hr
    unfold updateAux at hr
    injection hr with hr
    simp [← hr, discoveredStartTimes]
  | cons f fs ih =>
    intro m r hnd hr
    unfold updateAux at hr
    rcases hs : splitFirstUnderscore (splitext f).1 with _ | ⟨st, t⟩
    · rw [hs] at hr
      exact absurd hr (by simp)
    · rw [hs] at hr
      have hdisc : discoveredStartTimes tag (f :: fs) =
          if (t == tag) = true then st :: discoveredStartTimes tag fs
          else discoveredStartTimes tag fs := by
        unfold discoveredStartTimes
        rw [List.filterMap_cons]
        rw [hs]
        by_cases ht : (t == tag) = true
        · simp [Option.bind, ht]
        · simp [Option.bind, ht]
      have hr' : updateAux tag
          (if (t == tag) = true then odInsert m st ⟨st, t⟩ else m) fs = .ok r := hr
      by_cases ht : (t == tag) = true
      · rw [if_pos ht] at hr'
        rw [hdisc, if_pos ht] at hnd ⊢
        have hst : st ∉ start_times m := by
          intro hmem
          exact (List.disjoint_of_nodup_append hnd) hmem (by simp)
        have ha : m.any (fun p => p.1 == st) = false := by
          cases ha : m.any (fun p => p.1 == st) with
          | false => rfl
          | true => exact absurd ((any_key_iff m st).mp ha) hst
        have hkeys := start_times_odInsert_not_mem (⟨st, t⟩ : Batch) ha
        have hnd' : (start_times (odInsert m st ⟨st, t⟩) ++
            discoveredStartTimes tag fs).Nodup := by
          rw [hkeys, List.append_assoc]
          exact hnd
        have hklist := ih _ r hnd' hr'
        rw [hklist, hkeys, List.append_assoc]
        rfl
      · rw [if_neg ht] at hr'
        rw [hdisc, if_neg ht] at hnd ⊢
        exact ih _ r hnd hr'

/-- C4: after a successful `update`, the registry's keys are unique, the
`start_times` list is strictly increasing in the Python string order, and —
when the discovered matching timestamps are distinct — it equals exactly the
sorted order of those timestamp strings. -/
theorem c4_start_times_strictly_sorted (tag : String) (files : List String)
    (r : Registry) (hr : update tag files = .ok r) :
    (start_times r).Nodup
    ∧ (start_times r).Pairwise (fun a b => strLt a b = true)
    ∧ ((discoveredStartTimes tag files).Nodup →
        start_times r = (discoveredStartTimes tag files).insertionSort
          (fun a b => strLe a b = true)) := by
  unfold update at hr
  cases hu : updateAux tag [] files with
  | error e =>
    rw [hu] at hr
    exact absurd hr (by simp [Except.map])
  | ok m =>
    rw [hu] at hr
    simp only [Except.map] at hr
    injection hr with hr
    subst hr
    have hmnodup : (start_times m).Nodup :=
      nodup_start_times_updateAux tag files [] m (by simp [start_times]) hu
    have hperm : start_times (sortByKey m) = List.map Prod.fst (sortByKey m) := rfl
    have hp : (start_times (sortByKey m)).Perm (start_times m) :=
      (List.perm_insertionSort itemLe m).map Prod.fst
    have hnodup : (start_times (sortByKey m)).Nodup := hp.nodup_iff.mpr hmnodup
    have hsortedLe :
        (start_times (sortByKey m)).Pairwise (fun a b => strLe a b = true) :=
      List.Pairwise.map Prod.fst (fun _ _ hab => hab)
        (List.sorted_insertionSort itemLe m)
    refine ⟨hnodup, ?_, ?_⟩
    · exact (hsortedLe.and hnodup).imp fun hab =>
        strLt_of_strLe_of_ne hab.1 hab.2
    · intro hdisc
      have hkeys : start_times m = discoveredStartTimes tag files := by
        have h := start_times_updateAux tag files [] m
          (by simpa [start_times] using hdisc) hu
        simpa [start_times] using h
      refine List.eq_of_perm_of_sorted ?_ hsortedLe
        (List.sorted_insertionSort _ (discoveredStartTimes tag files))
      exact hp.trans (hkeys ▸
        (List.perm_insertionSort (fun a b => strLe a b = true)
          (discoveredStartTimes tag files)).symm)

/-- C4 witness: rescanning three concrete files (one of a foreign tag)
produces unique, strictly increasing start times equal to the sorted
discovered timestamps. -/
theorem c4_start_times_strictly_sorted_witness :
    (start_times [("A", (⟨"A", "t"⟩ : Batch)), ("B", ⟨"B", "t"⟩)]).Nodup
    ∧ (start_times [("A", (⟨"A", "t"⟩ : Batch)), ("B", ⟨"B", "t"⟩)]).Pairwise
        (fun a b => strLt a b = true)
    ∧ start_times [("A", (⟨"A", "t"⟩ : Batch)), ("B", ⟨"B", "t"⟩)] =
        (discoveredStartTimes "t" ["B_t.png", "A_t.png", "x_o.csv"]).insertionSort
          (fun a b => strLe a b = true) := by
  have h := c4_start_times_strictly_sorted "t" ["B_t.png", "A_t.png", "x_o.csv"]
    [("A", ⟨"A", "t"⟩), ("B", ⟨"B", "t"⟩)] (by decide)
  exact ⟨h.1, h.2.1, h.2.2 (by decide)⟩

/-! ### `get_spectrogram_from_range`

Datetimes are modelled as integers: the range query only ever *compares*
the parsed `datetime` values, and `strptime` with the fixed
`YYYY-MM-DDTHH:MM:SS` format is monotone, so any linearly ordered time
domain is faithful. -/

/-- A spectrogram as the range query sees it: its ordered time axis. -/
structure Spectrogram where
  datetimes : List Int
deriving DecidableEq, Repr

/-- `spectrogram.datetimes[0]`; the source indexes unconditionally, so it is
only meaningful on a non-empty time axis (theorems hypothesise this where it
matters). -/
def lowerBound (s : Spectrogram) : Int := s.datetimes.headD 0

/-- `spectrogram.datetimes[-1]`. -/
def upperBound (s : Spectrogram) : Int := s.datetimes.getLastD 0

/-- A batch as the range query sees it: whether its spectrogram file exists,
and the spectrogram `read_spectrogram()` would return. -/
structure RangeBatch where
  spectrogramFileExists : Bool
  spectrogram : Spectrogram
deriving DecidableEq, Repr

/-- Modelled from the spec: `time_chop` (the assembler's Clip primitive) is
not under `src/`; the spec says it returns a new spectrogram restricted to
timestamps within `[start, end]`. -/
def time_chop (s : Spectrogram) (startTime endTime : Int) : Spectrogram :=
  ⟨s.datetimes.filter fun t => decide (startTime ≤ t) && decide (t ≤ endTime)⟩

/-- Modelled from the spec: `join_spectrograms` (the assembler's Join
primitive) is not under `src/`; the spec says it concatenates along the time
axis in list order. -/
def join_spectrograms (l : List Spectrogram) : Spectrogram :=
  ⟨(l.map Spectrogram.datetimes).flatten⟩

/-- The batch passes the loop's two tests: its spectrogram file exists and
`start_datetime <= upper_bound and lower_bound <= end_datetime`. -/
def batchSelected (b : RangeBatch) (startTime endTime : Int) : Bool :=
  b.spectrogramFileExists &&
    (decide (startTime ≤ upperBound b.spectrogram) &&
     decide (lowerBound b.spectrogram ≤ endTime))

/-- The batches the discovery loop collects, in registry order. -/
def selectedBatches (bs : List RangeBatch) (startTime endTime : Int) :
    List RangeBatch :=
  bs.filter fun b => batchSelected b startTime endTime

/-- `Batches.get_spectrogram_from_range`: chop every selected batch's
spectrogram to the requested window and join the pieces; raise
`SpectrogramNotFoundError` when nothing was selected. -/
def get_spectrogram_from_range (bs : List RangeBatch)
    (startTime endTime : Int) : Except RegistryError Spectrogram :=
  let sps := (selectedBatches bs startTime endTime).map
    fun b => time_chop b.spectrogram startTime endTime
  if sps.isEmpty then .error .spectrogramNotFound
  else .ok (join_spectrograms sps)

/-! ### Range query theorems -/

/-- C1: a batch whose spectrogram file exists joins the result iff
`start ≤ batch.last ∧ batch.first ≤ end` (inclusive bounds); in particular a
batch whose time range is exactly `[end, end]` is included, one lying fully
after `end` is excluded, and the returned spectrogram is the join of the
selected batches' windows chopped to the request. -/
theorem c1_overlap_inclusive (bs : List RangeBatch) (s e : Int) :
    (∀ b ∈ bs, b.spectrogramFileExists = true →
       (b ∈ selectedBatches bs s e ↔
         s ≤ upperBound b.spectrogram ∧ lowerBound b.spectrogram ≤ e))
    ∧ (∀ b ∈ bs, b.spectrogramFileExists = true → s ≤ e →
        b.spectrogram.datetimes = [e] → b ∈ selectedBatches bs s e)
    ∧ (∀ b ∈ bs, e < lowerBound b.spectrogram → b ∉ selectedBatches bs s e)
    ∧ (selectedBatches bs s e ≠ [] →
        get_spectrogram_from_range bs s e =
          .ok (join_spectrograms ((selectedBatches bs s e).map
            fun b => time_chop b.spectrogram s e))) := by
  have hmem : ∀ b, b ∈ selectedBatches bs s e ↔
      b ∈ bs ∧ batchSelected b s e = true := by
    intro b
    rw [selectedBatches, List.mem_filter]
  refine ⟨?_, ?_, ?_, ?_⟩
  · intro b hb hex
    rw [hmem b]
    unfold batchSelected
    simp [hb, hex]
  · intro b hb hex hse hdt
    rw [hmem b]
    unfold batchSelected upperBound lowerBound
    simp [hb, hex, hdt, hse]
  · intro b _ hlt hsel
    have hc := ((hmem b).mp hsel).2
    unfold batchSelected at hc
    simp only [Bool.and_eq_true, decide_eq_true_eq] at hc
    exact absurd hc.2.2 (not_le.mpr hlt)
  · intro hne
    unfold get_spectrogram_from_range
    rw [if_neg (by simp [List.isEmpty_iff, hne])]

/-- C1 witness: with the window `[0, 10]`, a single-sample batch at exactly
time `10` is selected, a batch beginning at time `11` is not, and the query
returns the join of the chopped selected windows. -/
theorem c1_overlap_inclusive_witness :
    (⟨true, ⟨[10]⟩⟩ : RangeBatch) ∈
      selectedBatches [⟨true, ⟨[10]⟩⟩, ⟨true, ⟨[11, 12]⟩⟩] 0 10
    ∧ (⟨true, ⟨[11, 12]⟩⟩ : RangeBatch) ∉
      selectedBatches [⟨true, ⟨[10]⟩⟩, ⟨true, ⟨[11, 12]⟩⟩] 0 10
    ∧ get_spectrogram_from_range [⟨true, ⟨[10]⟩⟩, ⟨true, ⟨[11, 12]⟩⟩] 0 10 =
      .ok ⟨[10]⟩ := by
  refine ⟨?_, ?_, ?_⟩
  · exact (c1_overlap_inclusive [⟨true, ⟨[10]⟩⟩, ⟨true, ⟨[11, 12]⟩⟩] 0 10).2.1
      _ (by decide) (by decide) (by decide) (by decide)
  · exact (c1_overlap_inclusive [⟨true, ⟨[10]⟩⟩, ⟨true, ⟨[11, 12]⟩⟩] 0 10).2.2.1
      _ (by decide) (by decide)
  · have h := (c1_overlap_inclusive [⟨true, ⟨[10]⟩⟩, ⟨true, ⟨[11, 12]⟩⟩] 0 10).2.2.2
      (by decide)
    rw [h]
    decide

/-- C3: when no indexed batch with an existing spectrogram file overlaps the
inclusive window, the range query raises `SpectrogramNotFoundError` — it
never substitutes an empty spectrogram for the error. -/
theorem c3_no_overlap_raises (bs : List RangeBatch) (s e : Int)
    (h : ∀ b ∈ bs, b.spectrogramFileExists = true →
      ¬(s ≤ upperBound b.spectrogram ∧ lowerBound b.spectrogram ≤ e)) :
    get_spectrogram_from_range bs s e = .error .spectrogramNotFound := by
  have hsel : selectedBatches bs s e = [] := by
    rw [selectedBatches, List.filter_eq_nil_iff]
    intro b hb
    unfold batchSelected
    cases hex : b.spectrogramFileExists with
    | false => simp
    | true => simpa using h b hb hex
  unfold get_spectrogram_from_range
  rw [hsel]
  rfl

/-- C3 witness: a batch whose whole time range lies after the window makes
the query raise `SpectrogramNotFoundError`. -/
theorem c3_no_overlap_raises_witness :
    get_spectrogram_from_range [⟨true, ⟨[20, 30]⟩⟩] 0 10 =
      .error .spectrogramNotFound :=
  c3_no_overlap_raises [⟨true, ⟨[20, 30]⟩⟩] 0 10 (by decide)

/-- The day ⇒ (year ∧ month) and month ⇒ year presence dependency that the
spec requires of a date partition. -/
def dateDependencyHolds (year month day : Option Nat) : Prop :=
  (day.isSome → year.isSome ∧ month.isSome) ∧ (month.isSome → year.isSome)

/-- C5: with every present component a positive (hence truthy) number,
date-partitioned path construction succeeds iff the day ⇒ month ⇒ year
dependency holds, any violating combination yields a `ValueError`-style
error, and the successful path appends the present components zero-padded
as `YYYY/MM/DD`. -/
theorem c5_set_date_dependency (dataDir : String) (year month day : Option Nat)
    (hy : ∀ n, year = some n → 0 < n)
    (hm : ∀ n, month = some n → 0 < n)
    (hd : ∀ n, day = some n → 0 < n) :
    ((∃ p, get_batches_dir_path dataDir year month day = .ok p) ↔
      dateDependencyHolds year month day)
    ∧ (¬ dateDependencyHolds year month day →
        (get_batches_dir_path dataDir year month day =
            .error "A day requires both a month and a year" ∨
         get_batches_dir_path dataDir year month day =
            .error "A month requires a year"))
    ∧ (dateDependencyHolds year month day →
        get_batches_dir_path dataDir year month day =
          .ok (osPathJoin (dataDir ++ "/batches")
            ((year.map (zeroPad 4)).toList ++ (month.map (zeroPad 2)).toList ++
             (day.map (zeroPad 2)).toList))) := by
  have ty : truthy year = year.isSome := by
    cases year with
    | none => rfl
    | some n => have h := hy n rfl; simp [truthy]; omega
  have tm : truthy month = month.isSome := by
    cases month with
    | none => rfl
    | some n => have h := hm n rfl; simp [truthy]; omega
  have td : truthy day = day.isSome := by
    cases day with
    | none => rfl
    | some n => have h := hd n rfl; simp [truthy]; omega
  unfold get_batches_dir_path get_date_based_dir_path dateDependencyHolds
  rw [ty, tm, td]
  cases year <;> cases month <;> cases day <;> simp

/-- C5 witness: a fully specified positive date builds the zero-padded
`YYYY/MM/DD` partition under the batches root. -/
theorem c5_set_date_dependency_witness :
    get_batches_dir_path "/spectre-data" (some 2024) (some 6) (some 15) =
      .ok "/spectre-data/batches/2024/06/15" := by
  have h := (c5_set_date_dependency "/spectre-data" (some 2024) (some 6) (some 15)
      (fun n hn => by cases hn; decide)
      (fun n hn => by cases hn; decide)
      (fun n hn => by cases hn; decide)).2.2 (by constructor <;> intro <;> simp)
  rw [h]; decide

/-- C10: a date component equal to `0` is falsy in Python, so it is treated
exactly like an absent component: the batches directory path with a zero
year, month or day equals the path with that component omitted, and a zero
month beside any year raises no configuration error. -/
theorem c10_zero_component_is_absent (dataDir : String) (year month day : Option Nat) :
    get_batches_dir_path dataDir year (some 0) day =
      get_batches_dir_path dataDir year none day
    ∧ get_batches_dir_path dataDir (some 0) month day =
      get_batches_dir_path dataDir none month day
    ∧ get_batches_dir_path dataDir year month (some 0) =
      get_batches_dir_path dataDir year month none
    ∧ (get_batches_dir_path dataDir year (some 0) none).isOk = true := by
  refine ⟨rfl, rfl, rfl, ?_⟩
  unfold get_batches_dir_path get_date_based_dir_path
  simp [truthy, Except.isOk, Except.toBool]

end SpectreCore
